import Mathlib

/-!
Verification development for the mcp-meet repository.

Shallow embedding conventions:
- Time instants are Int values in milliseconds (JavaScript Date.getTime()).
- Half-open time windows are the structure Interval below; the JS objects
  carry ISO strings, but every comparison in the verified code paths happens
  on millisecond values, so ISO parsing and formatting are elided.
- Asynchronous collaborators (the Google contacts and calendar APIs, the
  filesystem token store) are modelled as explicit function parameters or
  explicit store values threaded through the pure transition functions.
-/

namespace McpMeet

/-- A half-open time window [start, end) in milliseconds, used both as a busy
interval and as a free slot (src/availability.ts, src/index.ts). The field
end is spelled end_ because end is a Lean keyword. -/
structure Interval where
  start : Int
  end_ : Int
deriving DecidableEq, Repr

/-! ## Contiguous-span picker (pickContiguous, src/index.ts lines 60-89) -/

/-- The scan loop of pickContiguous: accumulator (accStart, accEnd), merging a
slot whose start equals accEnd exactly, breaking at a gap once the accumulated
span already covers neededMs, restarting otherwise. -/
def pickGo (neededMs : Int) (accStart accEnd : Int) : List Interval → Int × Int
  | [] => (accStart, accEnd)
  | s :: rest =>
    if s.start = accEnd then
      pickGo neededMs accStart s.end_ rest
    else if neededMs ≤ accEnd - accStart then
      (accStart, accEnd)
    else
      pickGo neededMs s.start s.end_ rest

/-- pickContiguous from src/index.ts: null on empty input, otherwise scan with
the accumulator initialised to the first slot and finally return the window
[accStart, accStart + neededMs) when the accumulated span is long enough. -/
def pickContiguous (slots : List Interval) (durationMinutes : Int) : Option Interval :=
  match slots with
  | [] => none
  | s0 :: rest =>
    let neededMs := durationMinutes * 60 * 1000
    let acc := pickGo neededMs s0.start s0.end_ rest
    if neededMs ≤ acc.2 - acc.1 then some ⟨acc.1, acc.1 + neededMs⟩ else none

/-- Accumulator state for the specification-worded rendering of the picker:
the spec describes a scan that can stop early, so the state carries an
explicit stopped flag. -/
structure PickAcc where
  accStart : Int
  accEnd : Int
  stopped : Bool
deriving DecidableEq, Repr

/-- Modelled from the words of spec section 4.2: one step of the greedy scan.
If scanning already stopped, ignore the slot; if the slot start equals the
accumulator end exactly, merge; otherwise stop when the span already meets the
requested duration, and restart at the slot when it does not. -/
def pickStep (neededMs : Int) (st : PickAcc) (s : Interval) : PickAcc :=
  if st.stopped then st
  else if s.start = st.accEnd then { st with accEnd := s.end_ }
  else if neededMs ≤ st.accEnd - st.accStart then { st with stopped := true }
  else ⟨s.start, s.end_, false⟩

/-- Modelled from the words of spec section 4.2: initialise the accumulator to
the first slot, fold the greedy step over the remaining slots, and return the
window clipped to exactly the requested length when the final span qualifies;
not found otherwise, and not found on an empty sequence. -/
def pickContiguousSpan (slots : List Interval) (durationMinutes : Int) : Option Interval :=
  match slots with
  | [] => none
  | s0 :: rest =>
    let neededMs := durationMinutes * 60 * 1000
    let fin := rest.foldl (pickStep neededMs) ⟨s0.start, s0.end_, false⟩
    if neededMs ≤ fin.accEnd - fin.accStart then
      some ⟨fin.accStart, fin.accStart + neededMs⟩
    else none

theorem pickStep_stopped (neededMs : Int) (a b : Int) :
    ∀ l : List Interval, l.foldl (pickStep neededMs) ⟨a, b, true⟩ = ⟨a, b, true⟩ := by
  intro l
  induction l with
  | nil => rfl
  | cons s rest ih => simpa [pickStep] using ih

theorem pickGo_eq_foldl (neededMs : Int) :
    ∀ (l : List Interval) (a b : Int),
      pickGo neededMs a b l =
        ((l.foldl (pickStep neededMs) ⟨a, b, false⟩).accStart,
         (l.foldl (pickStep neededMs) ⟨a, b, false⟩).accEnd) := by
  intro l
  induction l with
  | nil => intro a b; rfl
  | cons s rest ih =>
    intro a b
    by_cases hmerge : s.start = b
    · simp [pickGo, pickStep, hmerge, ih]
    · by_cases hlong : neededMs ≤ b - a
      · simp [pickGo, pickStep, hmerge, hlong, pickStep_stopped]
      · simp [pickGo, pickStep, hmerge, hlong, ih]

/-- C1: for every ordered sequence of slots and every durationMinutes > 0,
pickContiguous follows the greedy single-pass algorithm of spec section 4.2:
it agrees everywhere with the accumulator fold written from the spec words
(initialise to the first slot, merge on exact adjacency, stop at a gap once
the span qualifies, restart otherwise, finally return the window clipped to
exactly the requested length), it returns none on the empty sequence, and any
returned window has length exactly durationMinutes. -/
theorem c1_pickContiguous_follows_greedy (slots : List Interval) (durationMinutes : Int)
    (hd : 0 < durationMinutes) :
    pickContiguous slots durationMinutes = pickContiguousSpan slots durationMinutes ∧
    pickContiguous ([] : List Interval) durationMinutes = none ∧
    (∀ w, pickContiguous slots durationMinutes = some w →
      w.end_ = w.start + durationMinutes * 60 * 1000) := by
  refine ⟨?_, rfl, ?_⟩
  · cases slots with
    | nil => rfl
    | cons s0 rest =>
      simp only [pickContiguous, pickContiguousSpan, pickGo_eq_foldl]
  · intro w hw
    cases slots with
    | nil => simp [pickContiguous] at hw
    | cons s0 rest =>
      simp only [pickContiguous] at hw
      split at hw
      · cases hw; rfl
      · exact absurd hw (by simp)

/-- Witness for C1 at the concrete example of spec section 8: three adjacent
half-hour slots 09:00-09:30, 09:30-10:00, 10:00-10:30 (ms of day) with a
requested duration of 60 minutes; the picker returns 09:00-10:00. -/
theorem c1_pickContiguous_follows_greedy_witness :
    (0 : Int) < 60 ∧
    (pickContiguous [⟨32400000, 34200000⟩, ⟨34200000, 36000000⟩, ⟨36000000, 37800000⟩] 60 =
        pickContiguousSpan [⟨32400000, 34200000⟩, ⟨34200000, 36000000⟩, ⟨36000000, 37800000⟩] 60 ∧
      pickContiguous ([] : List Interval) 60 = none ∧
      (∀ w, pickContiguous [⟨32400000, 34200000⟩, ⟨34200000, 36000000⟩, ⟨36000000, 37800000⟩] 60 =
          some w → w.end_ = w.start + 60 * 60 * 1000)) ∧
    pickContiguous [⟨32400000, 34200000⟩, ⟨34200000, 36000000⟩, ⟨36000000, 37800000⟩] 60 =
      some ⟨32400000, 36000000⟩ :=
  ⟨by decide,
   c1_pickContiguous_follows_greedy
     [⟨32400000, 34200000⟩, ⟨34200000, 36000000⟩, ⟨36000000, 37800000⟩] 60 (by decide),
   by decide⟩

/-! ## Interval math and slot grid (computeCommonFree, src/availability.ts) -/

/-- addMinutes from date-fns on millisecond instants. -/
def addMinutes (t m : Int) : Int := t + m * 60000

/-- areIntervalsOverlapping from date-fns with default options: two half-open
intervals overlap iff each one starts strictly before the other ends. -/
def areIntervalsOverlapping (a b : Interval) : Bool :=
  decide (a.start < b.end_) && decide (b.start < a.end_)

/-- The slot-generation loop of computeCommonFree: starting at t, while
t < windowEnd emit the candidate slot [t, t + slotMinutes) unless it overlaps
some busy interval of some attendee, then advance by slotMinutes. busyMaps is
the list of per-attendee busy lists (the values of the JS record). The source
loop diverges when slotMinutes is not positive; that unreachable case (the
callers validate slotMinutes > 0) is modelled as the empty result, and every
claim about this function carries 0 < slotMinutes. -/
def computeCommonFreeAux (windowEnd slotMinutes : Int) (busyMaps : List (List Interval))
    (t : Int) : List Interval :=
  if h : 0 < slotMinutes ∧ t < windowEnd then
    let slot : Interval := ⟨t, addMinutes t slotMinutes⟩
    let rest := computeCommonFreeAux windowEnd slotMinutes busyMaps (addMinutes t slotMinutes)
    if busyMaps.any (fun busyList => busyList.any (fun b => areIntervalsOverlapping slot b)) then
      rest
    else
      slot :: rest
  else []
termination_by (windowEnd - t).toNat
decreasing_by
  simp only [addMinutes]
  omega

/-- computeCommonFree from src/availability.ts: run the grid loop from
windowStart. -/
def computeCommonFree (windowStart windowEnd : Int) (busyMaps : List (List Interval))
    (slotMinutes : Int) : List Interval :=
  computeCommonFreeAux windowEnd slotMinutes busyMaps windowStart

theorem computeCommonFreeAux_eq (windowEnd slotMinutes : Int)
    (busyMaps : List (List Interval)) (t : Int) :
    computeCommonFreeAux windowEnd slotMinutes busyMaps t =
      if 0 < slotMinutes ∧ t < windowEnd then
        if busyMaps.any (fun busyList => busyList.any
            (fun b => areIntervalsOverlapping ⟨t, addMinutes t slotMinutes⟩ b)) then
          computeCommonFreeAux windowEnd slotMinutes busyMaps (addMinutes t slotMinutes)
        else
          ⟨t, addMinutes t slotMinutes⟩ ::
            computeCommonFreeAux windowEnd slotMinutes busyMaps (addMinutes t slotMinutes)
      else [] := by
  rw [computeCommonFreeAux]
  by_cases hc : 0 < slotMinutes ∧ t < windowEnd
  · rw [dif_pos hc, if_pos hc]
  · rw [dif_neg hc, if_neg hc]

theorem computeCommonFreeAux_no_overlap (windowEnd slotMinutes : Int)
    (busyMaps : List (List Interval)) :
    ∀ (n : Nat) (t : Int), (windowEnd - t).toNat = n →
      ∀ slot ∈ computeCommonFreeAux windowEnd slotMinutes busyMaps t,
      ∀ busyList ∈ busyMaps, ∀ b ∈ busyList, areIntervalsOverlapping slot b = false := by
  intro n
  induction n using Nat.strong_induction_on with
  | _ n ih =>
    intro t hn slot hs busyList hbl b hb
    rw [computeCommonFreeAux_eq] at hs
    by_cases hc : 0 < slotMinutes ∧ t < windowEnd
    · rw [if_pos hc] at hs
      have hdec : (windowEnd - addMinutes t slotMinutes).toNat < n := by
        simp only [addMinutes]
        omega
      by_cases hov : (busyMaps.any fun busyList => busyList.any
          fun bi => areIntervalsOverlapping ⟨t, addMinutes t slotMinutes⟩ bi) = true
      · rw [if_pos hov] at hs
        exact ih _ hdec _ rfl slot hs busyList hbl b hb
      · rw [if_neg hov] at hs
        rcases List.mem_cons.mp hs with heq | hmem
        · have hnb : ¬ areIntervalsOverlapping ⟨t, addMinutes t slotMinutes⟩ b = true := by
            intro hta
            apply hov
            simp only [List.any_eq_true]
            exact ⟨busyList, hbl, b, hb, hta⟩
          rw [heq]
          exact Bool.eq_false_iff.mpr hnb
        · exact ih _ hdec _ rfl slot hmem busyList hbl b hb
    · rw [if_neg hc] at hs
      exact absurd hs (List.not_mem_nil slot)

/-- C2: for every window, every busy map and every slotMinutes > 0, no slot
returned by computeCommonFree overlaps any busy interval of any attendee,
under the half-open overlap test: never (slot.start < b.end and
b.start < slot.end). -/
theorem c2_computeCommonFree_no_overlap (windowStart windowEnd : Int)
    (busyMaps : List (List Interval)) (slotMinutes : Int) (hs : 0 < slotMinutes) :
    ∀ slot ∈ computeCommonFree windowStart windowEnd busyMaps slotMinutes,
      ∀ busyList ∈ busyMaps, ∀ b ∈ busyList,
        ¬(slot.start < b.end_ ∧ b.start < slot.end_) := by
  intro slot hmem busyList hbl b hb
  have hfalse :=
    computeCommonFreeAux_no_overlap windowEnd slotMinutes busyMaps
      (windowEnd - windowStart).toNat windowStart rfl slot hmem busyList hbl b hb
  simp only [areIntervalsOverlapping, Bool.and_eq_false_iff, decide_eq_false_iff_not] at hfalse
  intro hover
  rcases hfalse with hfl | hfr
  · exact hfl hover.1
  · exact hfr hover.2

/-- Witness for C2: a one-hour window on a 30-minute grid with one attendee
busy during the first half hour; the surviving slot is the second half hour
and no returned slot overlaps the busy interval. -/
theorem c2_computeCommonFree_no_overlap_witness :
    (0 : Int) < 30 ∧
    (∀ slot ∈ computeCommonFree 0 3600000 [[⟨0, 1800000⟩]] 30,
      ∀ busyList ∈ [[(⟨0, 1800000⟩ : Interval)]], ∀ b ∈ busyList,
        ¬(slot.start < b.end_ ∧ b.start < slot.end_)) :=
  ⟨by decide, c2_computeCommonFree_no_overlap 0 3600000 [[⟨0, 1800000⟩]] 30 (by decide)⟩

/-- The witness scenario evaluated concretely: the busy first half hour
removes exactly the first candidate slot. -/
theorem computeCommonFree_busy_example :
    computeCommonFree 0 3600000 [[⟨0, 1800000⟩]] 30 = [⟨1800000, 3600000⟩] := by
  rw [computeCommonFree, computeCommonFreeAux_eq]
  norm_num [addMinutes, areIntervalsOverlapping]
  rw [computeCommonFreeAux_eq]
  norm_num [addMinutes, areIntervalsOverlapping]
  rw [computeCommonFreeAux_eq]
  norm_num

theorem ceil_div_step (A SN : Nat) (hSN : 0 < SN) (hA : 0 < A) :
    (A + SN - 1) / SN = ((A - SN) + SN - 1) / SN + 1 := by
  by_cases hle : SN ≤ A
  · have h1 : A - SN + SN - 1 = A - 1 := by omega
    have h2 : A + SN - 1 = (A - 1) + SN := by omega
    rw [h1, h2, Nat.add_div_right _ hSN]
  · have h1 : A - SN = 0 := by omega
    have h2 : (0 + SN - 1) / SN = 0 := Nat.div_eq_of_lt (by omega)
    rw [h1, h2]
    rw [Nat.div_eq_sub_div hSN (by omega : SN ≤ A + SN - 1)]
    have h3 : A + SN - 1 - SN = A - 1 := by omega
    rw [h3, Nat.div_eq_of_lt (by omega : A - 1 < SN)]

theorem ceil_div_zero (A SN : Nat) (hSN : 0 < SN) (hA : A = 0) :
    (A + SN - 1) / SN = 0 := by
  subst hA
  exact Nat.div_eq_of_lt (by omega)

/-- On an empty busy map every candidate slot is kept, so the grid loop from t
produces exactly the ceil((windowEnd - t) / step) slots [t + i*step,
t + (i+1)*step). -/
theorem computeCommonFreeAux_empty (windowEnd slotMinutes : Int) (hs : 0 < slotMinutes) :
    ∀ (n : Nat) (t : Int), (windowEnd - t).toNat = n →
      computeCommonFreeAux windowEnd slotMinutes [] t =
        (List.range (((windowEnd - t).toNat + (slotMinutes * 60000).toNat - 1) /
            (slotMinutes * 60000).toNat)).map
          (fun i => ⟨t + i * (slotMinutes * 60000),
                     t + i * (slotMinutes * 60000) + slotMinutes * 60000⟩) := by
  intro n
  induction n using Nat.strong_induction_on with
  | _ n ih =>
    intro t hn
    rw [computeCommonFreeAux_eq]
    by_cases hc : t < windowEnd
    · rw [if_pos ⟨hs, hc⟩]
      simp only [List.any_nil, Bool.false_eq_true, if_false]
      have hdec : (windowEnd - addMinutes t slotMinutes).toNat < n := by
        simp only [addMinutes]
        omega
      rw [ih _ hdec _ rfl]
      have hstep : ((windowEnd - t).toNat + (slotMinutes * 60000).toNat - 1) /
            (slotMinutes * 60000).toNat =
          ((windowEnd - addMinutes t slotMinutes).toNat + (slotMinutes * 60000).toNat - 1) /
            (slotMinutes * 60000).toNat + 1 := by
        have hA2 : (windowEnd - addMinutes t slotMinutes).toNat =
            (windowEnd - t).toNat - (slotMinutes * 60000).toNat := by
          simp only [addMinutes]
          omega
        rw [hA2]
        exact ceil_div_step _ _ (by omega) (by omega)
      rw [hstep, List.range_succ_eq_map, List.map_cons, List.map_map]
      congr 1
      · simp only [addMinutes]
        congr 1 <;> ring
      · apply List.map_congr_left
        intro i _
        simp only [Function.comp_apply, addMinutes]
        congr 1 <;> push_cast <;> ring
    · rw [if_neg (fun hcc => hc hcc.2)]
      rw [ceil_div_zero _ _ (by omega) (by omega)]
      simp

theorem chain'_map_range (P : Interval → Interval → Prop) :
    ∀ (n : Nat) (f : Nat → Interval), (∀ i, P (f i) (f (i + 1))) →
      List.Chain' P ((List.range n).map f) := by
  intro n
  induction n with
  | zero =>
    intro f _
    simp
  | succ k ih =>
    intro f hf
    rw [List.range_succ_eq_map, List.map_cons, List.map_map]
    rw [List.chain'_cons']
    constructor
    · intro y hy
      cases k with
      | zero => simp at hy
      | succ k2 =>
        rw [List.range_succ_eq_map, List.map_cons, List.head?_cons, Option.mem_some_iff] at hy
        subst hy
        exact hf 0
    · exact ih (f ∘ Nat.succ) (fun i => hf (i + 1))

theorem ceil_mul_ge (A SN : Nat) (hSN : 0 < SN) :
    A ≤ SN * ((A + SN - 1) / SN) := by
  have hdm := Nat.div_add_mod (A + SN - 1) SN
  have hmlt := Nat.mod_lt (A + SN - 1) hSN
  omega

/-- C3: on an empty busy map with windowStart < windowEnd and slotMinutes > 0,
computeCommonFree returns exactly ceil((windowEnd - windowStart) / step) slots
(step = slotMinutes in ms), namely the slots [t, t + step) obtained by
stepping t from windowStart while t < windowEnd; they are pairwise disjoint
and chronologically ordered (each slot ends where the next starts), every
slot, the trailing partial one included, has end = start + step (the
overshoot beyond windowEnd is not clipped), and the last slot ends at or
beyond windowEnd. -/
theorem c3_computeCommonFree_empty_busy (windowStart windowEnd slotMinutes : Int)
    (hw : windowStart < windowEnd) (hs : 0 < slotMinutes) :
    computeCommonFree windowStart windowEnd [] slotMinutes =
      (List.range (((windowEnd - windowStart).toNat + (slotMinutes * 60000).toNat - 1) /
          (slotMinutes * 60000).toNat)).map
        (fun i => ⟨windowStart + i * (slotMinutes * 60000),
                   windowStart + i * (slotMinutes * 60000) + slotMinutes * 60000⟩) ∧
    (computeCommonFree windowStart windowEnd [] slotMinutes).length =
      ((windowEnd - windowStart).toNat + (slotMinutes * 60000).toNat - 1) /
        (slotMinutes * 60000).toNat ∧
    List.Pairwise (fun a b => a.end_ ≤ b.start)
      (computeCommonFree windowStart windowEnd [] slotMinutes) ∧
    List.Chain' (fun a b => a.end_ = b.start)
      (computeCommonFree windowStart windowEnd [] slotMinutes) ∧
    (∀ slot ∈ computeCommonFree windowStart windowEnd [] slotMinutes,
      slot.end_ = slot.start + slotMinutes * 60000) ∧
    (∀ lastSlot,
      (computeCommonFree windowStart windowEnd [] slotMinutes).getLast? = some lastSlot →
      windowEnd ≤ lastSlot.end_) := by
  have hSN : 0 < (slotMinutes * 60000).toNat := by omega
  have hform := computeCommonFreeAux_empty windowEnd slotMinutes hs
    (windowEnd - windowStart).toNat windowStart rfl
  rw [computeCommonFree] at *
  refine ⟨hform, ?_, ?_, ?_, ?_, ?_⟩
  · rw [hform, List.length_map, List.length_range]
  · rw [hform]
    refine List.Pairwise.map _ ?_ (List.pairwise_lt_range _)
    intro i j hij
    simp only []
    have hij1 : (i : Int) + 1 ≤ (j : Int) := by exact_mod_cast hij
    have hnn : (0 : Int) ≤ slotMinutes * 60000 := by positivity
    nlinarith
  · rw [hform]
    apply chain'_map_range
    intro i
    simp only []
    push_cast
    ring
  · intro slot hmem
    rw [hform] at hmem
    rcases List.mem_map.mp hmem with ⟨i, _, hi⟩
    rw [← hi]
  · intro lastSlot hlast
    rw [hform] at hlast
    set SN := (slotMinutes * 60000).toNat with hSNdef
    set A := (windowEnd - windowStart).toNat with hAdef
    have hn1 : 1 ≤ (A + SN - 1) / SN := by
      rw [Nat.one_le_div_iff hSN]
      omega
    obtain ⟨m, hm⟩ : ∃ m, (A + SN - 1) / SN = m + 1 :=
      ⟨(A + SN - 1) / SN - 1, by omega⟩
    rw [hm, List.range_succ, List.map_append, List.map_cons, List.map_nil,
      List.getLast?_concat, Option.some_inj] at hlast
    have hge := ceil_mul_ge A SN hSN
    rw [hm] at hge
    have hgeInt : (windowEnd - windowStart) ≤ (SN : Int) * ((m : Int) + 1) := by
      have hA : (A : Int) = windowEnd - windowStart := by omega
      calc (windowEnd - windowStart) = (A : Int) := hA.symm
      _ ≤ ((SN * (m + 1) : Nat) : Int) := by exact_mod_cast hge
      _ = (SN : Int) * ((m : Int) + 1) := by push_cast; ring
    have hSInt : (SN : Int) = slotMinutes * 60000 := by omega
    rw [← hlast]
    simp only []
    rw [hSInt] at hgeInt
    nlinarith

/-- Witness for C3: a one-hour window on a 30-minute grid with no attendees
busy yields exactly ceil(60/30) = 2 slots, adjacent and unclipped. -/
theorem c3_computeCommonFree_empty_busy_witness :
    (0 : Int) < 3600000 ∧ (0 : Int) < 30 ∧
    computeCommonFree 0 3600000 [] 30 = [⟨0, 1800000⟩, ⟨1800000, 3600000⟩] ∧
    (computeCommonFree 0 3600000 [] 30).length = 2 := by
  have h := c3_computeCommonFree_empty_busy 0 3600000 30 (by decide) (by decide)
  refine ⟨by decide, by decide, ?_, ?_⟩
  · rw [h.1]
    decide
  · rw [h.2.1]
    decide

/-! ## Attendee resolver (resolveToEmail, resolveAttendeesToEmails,
src/google.ts lines 571-700). The Google People contacts collaborator is
modelled as a pure function from the query string to the raw list of
name/email results; searchInvitees keeps only results with a non-empty
email, and that filter is part of the model below. -/

/-- One contact returned by the contacts collaborator. -/
structure Contact where
  name : String
  email : String
deriving DecidableEq, Repr

/-- A resolved attendee: canonical email plus optional display name. -/
structure Resolved where
  email : String
  displayName : Option String
deriving DecidableEq, Repr

/-- JS String.prototype.trim, modelled on the character list of the string
(the inputs of interest are ASCII, where the JS and Lean whitespace classes
agree). The core String.trim is extensionally the same but its byte-position
implementation does not reduce in the kernel, so the model recomputes it
structurally. -/
def trimString (s : String) : String :=
  ⟨((s.data.dropWhile Char.isWhitespace).reverse.dropWhile Char.isWhitespace).reverse⟩

/-- JS String.prototype.toLowerCase for the basic latin range, structurally
on the character list. -/
def toLowerString (s : String) : String :=
  ⟨s.data.map Char.toLower⟩

/-- JS String.prototype.split with a single-character separator, structurally
on character lists: splitting the empty string yields one empty group, and a
trailing separator yields a trailing empty group. -/
def splitOnChar (sep : Char) : List Char → List (List Char)
  | [] => [[]]
  | c :: rest =>
    match splitOnChar sep rest with
    | [] => [[]]
    | g :: gs => if c = sep then [] :: g :: gs else (c :: g) :: gs

/-- Character class of the local part of the email regex in resolveToEmail:
letters, digits, and the listed specials (dot included). The backtick and the
braces are written with character escapes. -/
def isLocalChar (c : Char) : Bool :=
  c.isAlphanum ||
    ['!', '#', '$', '%', '&', '\'', '*', '+', '/', '=', '?', '^', '_',
     '\x60', '\x7b', '|', '\x7d', '~', '-', '.'].contains c

/-- One dot-separated domain label of the email regex: an alphanumeric
character, optionally followed by up to 61 characters of letters, digits or
hyphens and a final alphanumeric character (so 1 to 63 characters, first and
last alphanumeric, hyphens only inside). -/
def isDomainLabel (l : List Char) : Bool :=
  decide (1 ≤ l.length) && decide (l.length ≤ 63) &&
    (l.headD ' ').isAlphanum && (l.getLastD ' ').isAlphanum &&
    l.all (fun c => c.isAlphanum || c = '-')

/-- The anchored email regex of resolveToEmail: one or more local-part
characters, an at sign, then one or more domain labels separated by dots.
Neither character class admits an at sign, so a match contains exactly one at
sign; splitting on it is faithful. -/
def emailPattern (s : String) : Bool :=
  match splitOnChar '@' s.data with
  | [localPart, domain] =>
    decide (1 ≤ localPart.length) && localPart.all isLocalChar &&
      (splitOnChar '.' domain).all isDomainLabel
  | _ => false

/-- resolveToEmail from src/google.ts: trim, reject blank input, take the
syntactic fast path when the trimmed input matches the email regex (with the
254/64 length bounds), otherwise search contacts (searchInvitees filters out
results without an email) and demand exactly one match. -/
def resolveToEmail (searchContacts : String → List Contact) (nameOrEmail : String) :
    Except String Resolved :=
  let trimmed := trimString nameOrEmail
  if trimmed = "" then
    .error "Attendee name or email cannot be empty"
  else if emailPattern trimmed then
    if 254 < trimmed.length then
      .error ("Email address \"" ++ trimmed ++ "\" is too long (maximum 254 characters)")
    else
      let localPart := (splitOnChar '@' trimmed.data).headD []
      if 64 < localPart.length then
        .error ("Email address \"" ++ trimmed ++
          "\" has an invalid local part (maximum 64 characters before @)")
      else
        .ok ⟨toLowerString trimmed, none⟩
  else
    let results := (searchContacts trimmed).filter (fun r => r.email ≠ "")
    match results with
    | [r] => .ok ⟨toLowerString r.email, some r.name⟩
    | [] => .error ("No contact found for \"" ++ trimmed ++
        "\". Please provide their email address directly or check the spelling of their name.")
    | _ => .error ("Multiple contacts found for \"" ++ trimmed ++ "\":\n" ++
        String.intercalate "\n"
          ((results.take 5).map (fun r => "  - " ++ r.name ++ " (" ++ r.email ++ ")")) ++
        "\n\nPlease provide a specific email address or use a more specific name.")

/-- The duplicate-removal pass of resolveAttendeesToEmails: one walk over the
resolved list, keyed by lowercased email, keeping the first occurrence of each
key (the JS Map preserves first-insertion order). -/
def dedupByEmail (seen : List String) : List Resolved → List Resolved
  | [] => []
  | a :: rest =>
    if seen.contains (toLowerString a.email) then dedupByEmail seen rest
    else a :: dedupByEmail (toLowerString a.email :: seen) rest

/-- resolveAttendeesToEmails from src/google.ts: reject an empty list, resolve
every entry (an entry failure is rethrown naming the entry), then remove
duplicates by lowercased email keeping first occurrences. -/
def resolveAttendeesToEmails (searchContacts : String → List Contact)
    (namesOrEmails : List String) : Except String (List Resolved) :=
  if namesOrEmails.isEmpty then
    .error "At least one attendee is required"
  else do
    let resolved ← namesOrEmails.mapM (fun nameOrEmail =>
      match resolveToEmail searchContacts nameOrEmail with
      | .ok r => Except.ok r
      | .error msg =>
        Except.error ("Failed to resolve attendee \"" ++ nameOrEmail ++ "\": " ++ msg))
    pure (dedupByEmail [] resolved)

/-- C4: resolveToEmail trims its input and fails on blank input; when the
trimmed input does not match the email pattern it queries contacts and, with
exactly one (non-empty-email) result, succeeds with that result's lowercased
email and display name; with zero results it fails with the message that
suggests supplying the email directly; with two or more results it fails with
the message enumerating up to five candidates as name (email) pairs, never
silently picking one. -/
theorem c4_resolveToEmail_branches (searchContacts : String → List Contact)
    (nameOrEmail : String) :
    ((trimString nameOrEmail) = "" →
      resolveToEmail searchContacts nameOrEmail =
        .error "Attendee name or email cannot be empty") ∧
    ((trimString nameOrEmail) ≠ "" → emailPattern (trimString nameOrEmail) = false →
      ((∀ r, (searchContacts (trimString nameOrEmail)).filter (fun c => c.email ≠ "") = [r] →
          resolveToEmail searchContacts nameOrEmail = .ok ⟨(toLowerString r.email), some r.name⟩) ∧
       ((searchContacts (trimString nameOrEmail)).filter (fun c => c.email ≠ "") = [] →
          resolveToEmail searchContacts nameOrEmail =
            .error ("No contact found for \"" ++ (trimString nameOrEmail) ++
              "\". Please provide their email address directly or check the spelling of their name.")) ∧
       (∀ results, (searchContacts (trimString nameOrEmail)).filter (fun c => c.email ≠ "") = results →
          2 ≤ results.length →
          resolveToEmail searchContacts nameOrEmail =
            .error ("Multiple contacts found for \"" ++ (trimString nameOrEmail) ++ "\":\n" ++
              String.intercalate "\n"
                ((results.take 5).map (fun r => "  - " ++ r.name ++ " (" ++ r.email ++ ")")) ++
              "\n\nPlease provide a specific email address or use a more specific name.") ∧
          ∀ r, resolveToEmail searchContacts nameOrEmail ≠ .ok r))) := by
  constructor
  · intro hblank
    simp only [resolveToEmail, hblank, if_pos]
  · intro hne hpat
    have hre : resolveToEmail searchContacts nameOrEmail =
        (match (searchContacts (trimString nameOrEmail)).filter (fun c => c.email ≠ "") with
         | [r] => Except.ok ⟨(toLowerString r.email), some r.name⟩
         | [] => Except.error ("No contact found for \"" ++ (trimString nameOrEmail) ++
             "\". Please provide their email address directly or check the spelling of their name.")
         | results => Except.error ("Multiple contacts found for \"" ++ (trimString nameOrEmail) ++
             "\":\n" ++ String.intercalate "\n"
               ((results.take 5).map (fun r => "  - " ++ r.name ++ " (" ++ r.email ++ ")")) ++
             "\n\nPlease provide a specific email address or use a more specific name.")) := by
      simp only [resolveToEmail, if_neg hne, hpat, Bool.false_eq_true, if_false]
      generalize (searchContacts (trimString nameOrEmail)).filter (fun c => c.email ≠ "") = rs
      match rs with
      | [] => rfl
      | [a] => rfl
      | a :: b :: rest => rfl
    refine ⟨?_, ?_, ?_⟩
    · intro r hr
      rw [hre, hr]
    · intro hr
      rw [hre, hr]
    · intro results hr hlen
      match results, hlen with
      | a :: b :: rest, _ =>
        rw [hre, hr]
        exact ⟨rfl, by simp⟩

/-- A concrete contacts collaborator exercising every branch of C4. -/
def c4oracle : String → List Contact := fun q =>
  if q = "Alice" then [⟨"Alice", "ALICE@example.com"⟩]
  else if q = "Carol" then [⟨"Carol A", "ca@x.com"⟩, ⟨"Carol B", "cb@x.com"⟩]
  else []

/-- Witness for C4: blank input fails, a unique contact match succeeds with
the lowercased email and display name, no match fails suggesting a direct
email, and two matches fail listing both candidates. -/
theorem c4_resolveToEmail_branches_witness :
    resolveToEmail c4oracle "  " = .error "Attendee name or email cannot be empty" ∧
    resolveToEmail c4oracle "Alice" = .ok ⟨"alice@example.com", some "Alice"⟩ ∧
    resolveToEmail c4oracle "Bob" = .error
      ("No contact found for \"Bob\". Please provide their email address directly or check the spelling of their name.") ∧
    resolveToEmail c4oracle "Carol" = .error
      ("Multiple contacts found for \"Carol\":\n  - Carol A (ca@x.com)\n  - Carol B (cb@x.com)\n\nPlease provide a specific email address or use a more specific name.") := by
  refine ⟨?_, ?_, ?_, ?_⟩
  · exact (c4_resolveToEmail_branches c4oracle "  ").1 (by decide)
  · exact (((c4_resolveToEmail_branches c4oracle "Alice").2 (by decide) (by decide)).1
      ⟨"Alice", "ALICE@example.com"⟩ (by decide)).trans (by rfl)
  · exact ((((c4_resolveToEmail_branches c4oracle "Bob").2 (by decide) (by decide)).2.1)
      (by decide)).trans (by rfl)
  · exact ((((c4_resolveToEmail_branches c4oracle "Carol").2 (by decide) (by decide)).2.2)
      [⟨"Carol A", "ca@x.com"⟩, ⟨"Carol B", "cb@x.com"⟩] (by decide) (by decide)).1.trans
      (by rfl)

/-- An output email is canonical when it is trimmed, matches the syntactic
email pattern with the 254/64 length bounds, and is already lowercase: such
an email takes the syntactic fast path of resolveToEmail on a second
resolution. -/
def canonicalEmail (e : String) : Bool :=
  decide (trimString e = e) && emailPattern e && decide (e.length ≤ 254) &&
    decide (((splitOnChar '@' e.data).headD []).length ≤ 64) &&
    decide (toLowerString e = e)

theorem resolveToEmail_canonical (searchContacts : String → List Contact) (e : String)
    (h : canonicalEmail e = true) : resolveToEmail searchContacts e = .ok ⟨e, none⟩ := by
  simp only [canonicalEmail, Bool.and_eq_true, decide_eq_true_eq] at h
  obtain ⟨⟨⟨⟨htrim, hpat⟩, hlen⟩, hlocal⟩, hlower⟩ := h
  have hne : e ≠ "" := by
    intro h0
    rw [h0] at hpat
    exact absurd hpat (by decide)
  simp only [resolveToEmail, htrim]
  rw [if_neg hne, if_pos hpat, if_neg (by omega), if_neg (by omega), hlower]

theorem dedupByEmail_keys :
    ∀ (l : List Resolved) (seen : List String),
      ((dedupByEmail seen l).map (fun r => toLowerString r.email)).Nodup ∧
      ∀ r ∈ dedupByEmail seen l, toLowerString r.email ∉ seen := by
  intro l
  induction l with
  | nil =>
    intro seen
    simp [dedupByEmail]
  | cons a rest ih =>
    intro seen
    by_cases hc : seen.contains (toLowerString a.email) = true
    · rw [dedupByEmail, if_pos hc]
      exact ih seen
    · rw [dedupByEmail, if_neg hc]
      obtain ⟨hnd, hdisj⟩ := ih (toLowerString a.email :: seen)
      have hanot : toLowerString a.email ∉ seen := by
        intro hmem
        exact hc (List.elem_iff.mpr hmem)
      refine ⟨?_, ?_⟩
      · rw [List.map_cons, List.nodup_cons]
        refine ⟨?_, hnd⟩
        intro hmem
        rcases List.mem_map.mp hmem with ⟨r, hr, hkey⟩
        have hnot := hdisj r hr
        rw [hkey] at hnot
        exact hnot (List.mem_cons_self _ _)
      · intro r hr
        rcases List.mem_cons.mp hr with heq | hmem
        · rw [heq]
          exact hanot
        · intro hrin
          exact hdisj r hmem (List.mem_cons_of_mem _ hrin)

theorem dedupByEmail_id :
    ∀ (l : List Resolved) (seen : List String),
      (l.map (fun r => toLowerString r.email)).Nodup →
      (∀ r ∈ l, toLowerString r.email ∉ seen) →
      dedupByEmail seen l = l := by
  intro l
  induction l with
  | nil =>
    intro seen _ _
    rfl
  | cons a rest ih =>
    intro seen hnd hdisj
    rw [List.map_cons, List.nodup_cons] at hnd
    have hc : ¬ seen.contains (toLowerString a.email) = true := by
      intro hct
      exact hdisj a (List.mem_cons_self _ _) (List.elem_iff.mp hct)
    rw [dedupByEmail, if_neg hc]
    congr 1
    apply ih
    · exact hnd.2
    · intro r hr hrin
      rcases List.mem_cons.mp hrin with heq | hmem
      · exact hnd.1 (heq ▸ List.mem_map.mpr ⟨r, hr, rfl⟩)
      · exact hdisj r (List.mem_cons_of_mem _ hr) hmem

theorem mapM_canonical (searchContacts : String → List Contact) :
    ∀ l : List String, (∀ e ∈ l, canonicalEmail e = true) →
      l.mapM (fun nameOrEmail =>
        match resolveToEmail searchContacts nameOrEmail with
        | .ok r => Except.ok r
        | .error msg =>
          Except.error ("Failed to resolve attendee \"" ++ nameOrEmail ++ "\": " ++ msg)) =
      Except.ok (l.map (fun e => (⟨e, none⟩ : Resolved))) := by
  intro l
  induction l with
  | nil =>
    intro _
    rfl
  | cons a rest ih =>
    intro hall
    rw [List.mapM_cons, resolveToEmail_canonical searchContacts a (hall a (List.mem_cons_self _ _)),
      ih (fun e he => hall e (List.mem_cons_of_mem _ he))]
    rfl

theorem resolveAttendees_ok_shape (searchContacts : String → List Contact)
    (namesOrEmails : List String) (out : List Resolved)
    (hok : resolveAttendeesToEmails searchContacts namesOrEmails = .ok out) :
    out ≠ [] ∧ (out.map (fun r => toLowerString r.email)).Nodup := by
  unfold resolveAttendeesToEmails at hok
  by_cases he : namesOrEmails.isEmpty
  · rw [if_pos he] at hok
    exact absurd hok (by simp)
  · rw [if_neg he] at hok
    cases hns : namesOrEmails with
    | nil =>
      rw [hns] at he
      exact absurd rfl he
    | cons a rest =>
      rw [hns, List.mapM_cons] at hok
      cases hfa : (match resolveToEmail searchContacts a with
        | .ok r => Except.ok r
        | .error msg =>
          Except.error ("Failed to resolve attendee \"" ++ a ++ "\": " ++ msg)) with
      | error e =>
        rw [hfa] at hok
        exact Except.noConfusion hok
      | ok x =>
        rw [hfa] at hok
        cases hrest : rest.mapM (fun nameOrEmail =>
          match resolveToEmail searchContacts nameOrEmail with
          | .ok r => Except.ok r
          | .error msg =>
            Except.error ("Failed to resolve attendee \"" ++ nameOrEmail ++ "\": " ++ msg)) with
        | error e =>
          rw [hrest] at hok
          exact Except.noConfusion hok
        | ok xs =>
          rw [hrest] at hok
          have hout : out = dedupByEmail [] (x :: xs) := (Except.ok.inj hok).symm
          constructor
          · rw [hout, dedupByEmail, if_neg (by simp)]
            simp
          · rw [hout]
            exact (dedupByEmail_keys (x :: xs) []).1

/-- C5 (amended): if resolveAttendeesToEmails succeeds and every output email
is canonical (trimmed, syntactically a valid email within the length bounds,
lowercase - which the spec calls already-canonical emails), then re-resolving
the output emails is idempotent: the second call returns the same emails under
any contacts collaborator whatsoever, so it performs no contacts lookup
(every output email takes the syntactic fast path). -/
theorem c5_resolveAttendees_roundtrip (searchContacts searchContacts2 : String → List Contact)
    (namesOrEmails : List String) (out : List Resolved)
    (hok : resolveAttendeesToEmails searchContacts namesOrEmails = .ok out)
    (hcanon : ∀ r ∈ out, canonicalEmail r.email = true) :
    resolveAttendeesToEmails searchContacts2 (out.map (fun r => r.email)) =
      .ok (out.map (fun r => (⟨r.email, none⟩ : Resolved))) ∧
    (out.map (fun r => (⟨r.email, none⟩ : Resolved))).map (fun r => r.email) =
      out.map (fun r => r.email) := by
  obtain ⟨hne, hnd⟩ := resolveAttendees_ok_shape searchContacts namesOrEmails out hok
  constructor
  · unfold resolveAttendeesToEmails
    have hempty : (out.map (fun r => r.email)).isEmpty = false := by
      cases out with
      | nil => exact absurd rfl hne
      | cons x xs => rfl
    rw [if_neg (by rw [hempty]; exact Bool.false_ne_true)]
    have hcanon2 : ∀ e ∈ out.map (fun r => r.email), canonicalEmail e = true := by
      intro e he
      rcases List.mem_map.mp he with ⟨r, hr, hre⟩
      rw [← hre]
      exact hcanon r hr
    rw [mapM_canonical searchContacts2 _ hcanon2]
    have hmm : (out.map (fun r => r.email)).map (fun e => (⟨e, none⟩ : Resolved)) =
        out.map (fun r => (⟨r.email, none⟩ : Resolved)) := by
      rw [List.map_map]
      rfl
    have hdid : dedupByEmail [] (out.map (fun r => (⟨r.email, none⟩ : Resolved))) =
        out.map (fun r => (⟨r.email, none⟩ : Resolved)) := by
      apply dedupByEmail_id
      · rw [List.map_map]
        exact hnd
      · intro r _ hmem
        exact absurd hmem (List.not_mem_nil _)
    exact (congrArg (fun l =>
        (Except.ok (dedupByEmail [] l) : Except String (List Resolved))) hmm).trans
      (congrArg Except.ok hdid)
  · rw [List.map_map]
    rfl

/-- A contacts collaborator that resolves the name Alice to a contact whose
stored address contains an underscore in the domain; the address is accepted
by the Google People API but rejected by the syntactic email pattern. -/
def c5oracle : String → List Contact := fun q =>
  if q = "Alice" then [⟨"Alice", "alice@ex_ample.com"⟩] else []

/-- Counterexample for C5 as stated: the first call succeeds through a
contacts lookup, but its output email alice@ex_ample.com does not match the
syntactic email pattern, so the second call does not take the fast path: it
performs another contacts lookup, finds nothing, and fails instead of
returning the same set of emails. -/
theorem c5_roundtrip_counterexample :
    resolveAttendeesToEmails c5oracle ["Alice"] =
      .ok [⟨"alice@ex_ample.com", some "Alice"⟩] ∧
    resolveAttendeesToEmails c5oracle ["alice@ex_ample.com"] =
      .error "Failed to resolve attendee \"alice@ex_ample.com\": No contact found for \"alice@ex_ample.com\". Please provide their email address directly or check the spelling of their name." := by
  constructor
  · rfl
  · rfl

/-- A contacts collaborator that never finds anything; canonical email inputs
are resolved without consulting it. -/
def c5oracleGood : String → List Contact := fun _ => []

/-- Witness for C5: resolving a mixed-case email succeeds on the syntactic
fast path, its output email is canonical, and re-resolving the output emails
returns the same emails. -/
theorem c5_resolveAttendees_roundtrip_witness :
    resolveAttendeesToEmails c5oracleGood ["Alice@Example.com"] =
      .ok [⟨"alice@example.com", none⟩] ∧
    resolveAttendeesToEmails c5oracleGood ["alice@example.com"] =
      .ok [⟨"alice@example.com", none⟩] := by
  have h := c5_resolveAttendees_roundtrip c5oracleGood c5oracleGood ["Alice@Example.com"]
    [⟨"alice@example.com", none⟩] (by rfl) (by decide)
  exact ⟨by rfl, h.1⟩

/-! ## Account and token store (src/google.ts lines 363-566). The persisted
tokens.json document is modelled as a TokenStore value; the accounts record is
an association list in JS key-insertion order (string keys of a JS object
preserve insertion order). Each mutation loads the store, rewrites it and
saves it; the model exposes the store transition and whether a save happened. -/

/-- OpaqueTokenSet of an account (google.ts Credentials). -/
structure Credentials where
  access_token : Option String := none
  refresh_token : Option String := none
  expiry_date : Option Int := none
  token_type : Option String := none
  scope : Option String := none
deriving DecidableEq, Repr

/-- One stored account entry. -/
structure AccountEntry where
  label : Option String := none
  tokens : Credentials := {}
deriving DecidableEq, Repr

/-- The multi-account token store. -/
structure TokenStore where
  accounts : List (String × AccountEntry)
  defaultAccount : Option String
deriving DecidableEq, Repr

/-- JS record update accounts[k] = v: overwrite in place when the key exists,
append otherwise (JS object key order). -/
def setEntry : List (String × AccountEntry) → String → AccountEntry →
    List (String × AccountEntry)
  | [], k, v => [(k, v)]
  | (k0, v0) :: rest, k, v =>
    if k0 = k then (k, v) :: rest else (k0, v0) :: setEntry rest k v

/-- JS delete accounts[k]. -/
def delEntry : List (String × AccountEntry) → String → List (String × AccountEntry)
  | [], _ => []
  | (k0, v0) :: rest, k =>
    if k0 = k then rest else (k0, v0) :: delEntry rest k

/-- saveTokens from src/google.ts as a store transition: drop the legacy
placeholder when saving a real account (redirecting the default to the saved
email when it pointed at the placeholder), upsert the entry keeping the old
label when none is given, and make the saved account the default when there
was none or it was the placeholder. -/
def saveTokens (store : TokenStore) (tokens : Credentials) (email : String)
    (label : Option String := none) : TokenStore :=
  let store1 :=
    if (store.accounts.lookup "_legacy_").isSome ∧ email ≠ "_legacy_" then
      { accounts := delEntry store.accounts "_legacy_",
        defaultAccount :=
          if store.defaultAccount = some "_legacy_" then some email
          else store.defaultAccount }
    else store
  let newLabel :=
    match label with
    | some s => if s = "" then (store1.accounts.lookup email).bind (fun e => e.label) else some s
    | none => (store1.accounts.lookup email).bind (fun e => e.label)
  let store2 : TokenStore :=
    { accounts := setEntry store1.accounts email ⟨newLabel, tokens⟩,
      defaultAccount := store1.defaultAccount }
  if store2.defaultAccount = none ∨ store2.defaultAccount = some "_legacy_" then
    { store2 with defaultAccount := some email }
  else store2

/-- removeAccount from src/google.ts: (returned-boolean, new store, whether
the store was written). On a missing key it returns false without writing;
otherwise it deletes the entry and, when the removed account was the default,
reassigns the default to the first remaining non-placeholder key or null
(remaining[0] || null; account keys are non-empty email addresses, so the JS
truthiness of remaining[0] is plain head access). -/
def removeAccount (store : TokenStore) (email : String) : Bool × TokenStore × Bool :=
  if (store.accounts.lookup email).isNone then (false, store, false)
  else
    let accounts1 := delEntry store.accounts email
    let default1 :=
      if store.defaultAccount = some email then
        match (accounts1.map (fun p => p.1)).filter (fun e => e ≠ "_legacy_") with
        | [] => none
        | e :: _ => some e
      else store.defaultAccount
    (true, ⟨accounts1, default1⟩, true)

/-- setDefaultAccount from src/google.ts: false without writing on a missing
key, otherwise point the default at the given account. -/
def setDefaultAccount (store : TokenStore) (email : String) : Bool × TokenStore × Bool :=
  if (store.accounts.lookup email).isNone then (false, store, false)
  else (true, { store with defaultAccount := some email }, true)

/-- The store invariant of spec section 3: the default account, when set,
keys an existing entry. -/
def storeInvariant (store : TokenStore) : Prop :=
  ∀ d, store.defaultAccount = some d → (store.accounts.lookup d).isSome

theorem lookup_setEntry_self :
    ∀ (l : List (String × AccountEntry)) (k : String) (v : AccountEntry),
      (setEntry l k v).lookup k = some v := by
  intro l k v
  induction l with
  | nil => simp [setEntry, List.lookup]
  | cons p rest ih =>
    by_cases hk : p.1 = k
    · simp [setEntry, hk, List.lookup]
    · simp only [setEntry, if_neg hk, List.lookup]
      have hb : (k == p.1) = false := beq_eq_false_iff_ne.mpr (fun h => hk h.symm)
      rw [hb]
      exact ih

theorem lookup_setEntry_ne :
    ∀ (l : List (String × AccountEntry)) (k : String) (v : AccountEntry) (k2 : String),
      k2 ≠ k → (setEntry l k v).lookup k2 = l.lookup k2 := by
  intro l k v k2 hne
  induction l with
  | nil =>
    simp only [setEntry, List.lookup]
    rw [beq_eq_false_iff_ne.mpr hne]
  | cons p rest ih =>
    by_cases hk : p.1 = k
    · simp only [setEntry, if_pos hk, List.lookup]
      rw [hk, beq_eq_false_iff_ne.mpr hne]
    · simp only [setEntry, if_neg hk, List.lookup]
      by_cases h2 : k2 = p.1
      · rw [beq_iff_eq.mpr h2]
      · rw [beq_eq_false_iff_ne.mpr h2]
        exact ih

theorem lookup_delEntry_ne :
    ∀ (l : List (String × AccountEntry)) (k k2 : String),
      k2 ≠ k → (delEntry l k).lookup k2 = l.lookup k2 := by
  intro l k k2 hne
  induction l with
  | nil => rfl
  | cons p rest ih =>
    by_cases hk : p.1 = k
    · simp only [delEntry, if_pos hk, List.lookup]
      rw [beq_eq_false_iff_ne.mpr (hk ▸ hne)]
    · simp only [delEntry, if_neg hk, List.lookup]
      by_cases h2 : k2 = p.1
      · rw [beq_iff_eq.mpr h2]
      · rw [beq_eq_false_iff_ne.mpr h2]
        exact ih

theorem mem_keys_lookup :
    ∀ (l : List (String × AccountEntry)) (e : String),
      e ∈ l.map (fun p => p.1) → (l.lookup e).isSome = true := by
  intro l e hmem
  induction l with
  | nil => simp at hmem
  | cons p rest ih =>
    rw [List.map_cons, List.mem_cons] at hmem
    rcases hmem with heq | hmem
    · simp only [List.lookup, beq_iff_eq.mpr heq]
      rfl
    · simp only [List.lookup]
      by_cases h2 : e = p.1
      · rw [beq_iff_eq.mpr h2]
        rfl
      · rw [beq_eq_false_iff_ne.mpr h2]
        exact ih hmem

theorem saveTokens_invariant (store : TokenStore) (tokens : Credentials) (email : String)
    (label : Option String) (hinv : storeInvariant store) :
    storeInvariant (saveTokens store tokens email label) := by
  intro d hd
  simp only [saveTokens] at hd ⊢
  split_ifs at hd ⊢ with h1 h2 h3 h4 h5
  · have hde : email = d := Option.some.inj hd
    subst hde
    show ((setEntry _ email _).lookup email).isSome = true
    rw [lookup_setEntry_self]
    rfl
  · have hde : email = d := Option.some.inj hd
    subst hde
    show ((setEntry _ email _).lookup email).isSome = true
    rw [lookup_setEntry_self]
    rfl
  · have hde : email = d := Option.some.inj hd
    subst hde
    show ((setEntry _ email _).lookup email).isSome = true
    rw [lookup_setEntry_self]
    rfl
  · have hsd : store.defaultAccount = some d := hd
    by_cases hde : d = email
    · subst hde
      show ((setEntry _ d _).lookup d).isSome = true
      rw [lookup_setEntry_self]
      rfl
    · show ((setEntry (delEntry store.accounts "_legacy_") email _).lookup d).isSome = true
      rw [lookup_setEntry_ne _ _ _ _ hde]
      have hdl : d ≠ "_legacy_" := by
        intro hq
        rw [hq] at hsd
        exact (not_or.mp h4).2 hsd
      rw [lookup_delEntry_ne _ _ _ hdl]
      exact hinv d hsd
  · have hde : email = d := Option.some.inj hd
    subst hde
    show ((setEntry _ email _).lookup email).isSome = true
    rw [lookup_setEntry_self]
    rfl
  · have hsd : store.defaultAccount = some d := hd
    by_cases hde : d = email
    · subst hde
      show ((setEntry _ d _).lookup d).isSome = true
      rw [lookup_setEntry_self]
      rfl
    · show ((setEntry store.accounts email _).lookup d).isSome = true
      rw [lookup_setEntry_ne _ _ _ _ hde]
      exact hinv d hsd

theorem removeAccount_invariant (store : TokenStore) (email : String)
    (hinv : storeInvariant store) : storeInvariant (removeAccount store email).2.1 := by
  intro d hd
  simp only [removeAccount] at hd ⊢
  split_ifs at hd ⊢ with h1 h2
  · exact hinv d hd
  · cases hrem : ((delEntry store.accounts email).map (fun p => p.1)).filter
        (fun e => e ≠ "_legacy_") with
    | nil =>
      rw [hrem] at hd
      exact Option.noConfusion hd
    | cons e rest =>
      rw [hrem] at hd
      have hde : e = d := Option.some.inj hd
      subst hde
      apply mem_keys_lookup
      have hmem : e ∈ ((delEntry store.accounts email).map (fun p => p.1)).filter
          (fun x => x ≠ "_legacy_") := by
        rw [hrem]
        exact List.mem_cons_self _ _
      exact (List.mem_filter.mp hmem).1
  · have hsd : store.defaultAccount = some d := hd
    have hde : d ≠ email := by
      intro hq
      rw [hq] at hsd
      exact h2 hsd
    show ((delEntry store.accounts email).lookup d).isSome = true
    rw [lookup_delEntry_ne _ _ _ hde]
    exact hinv d hsd

theorem setDefaultAccount_invariant (store : TokenStore) (email : String)
    (hinv : storeInvariant store) : storeInvariant (setDefaultAccount store email).2.1 := by
  intro d hd
  simp only [setDefaultAccount] at hd ⊢
  split_ifs at hd ⊢ with h1
  · exact hinv d hd
  · have hde : email = d := Option.some.inj hd
    subst hde
    cases hle : store.accounts.lookup email with
    | none =>
      rw [hle] at h1
      exact absurd rfl h1
    | some v => rfl

/-- C7: every account-store mutation preserves the invariant that the default
account, when set, keys an existing entry; saving into an empty store makes
the saved account the default; and removing the account that is the current
default reassigns the default to the first remaining non-placeholder entry,
or to null when no non-placeholder entry remains. -/
theorem c7_mutations_keep_default_valid (store : TokenStore) (tokens : Credentials)
    (email : String) (label : Option String) (hinv : storeInvariant store) :
    storeInvariant (saveTokens store tokens email label) ∧
    storeInvariant (removeAccount store email).2.1 ∧
    storeInvariant (setDefaultAccount store email).2.1 ∧
    (store.accounts = [] → (saveTokens store tokens email label).defaultAccount = some email) ∧
    (store.defaultAccount = some email → (store.accounts.lookup email).isSome = true →
      (removeAccount store email).2.1.defaultAccount =
        (((delEntry store.accounts email).map (fun p => p.1)).filter
          (fun e => e ≠ "_legacy_")).head?) := by
  refine ⟨saveTokens_invariant store tokens email label hinv,
    removeAccount_invariant store email hinv,
    setDefaultAccount_invariant store email hinv, ?_, ?_⟩
  · intro hacc
    have hdn : store.defaultAccount = none := by
      cases hdef : store.defaultAccount with
      | none => rfl
      | some x =>
        have hlk := hinv x hdef
        rw [hacc] at hlk
        exact absurd hlk (by simp [List.lookup])
    simp only [saveTokens]
    simp only [hacc]
    simp only [List.lookup, Option.isSome_none, Bool.false_eq_true, false_and, if_false]
    rw [if_pos (Or.inl hdn)]
  · intro hdef hsome
    have hnone : ¬ (store.accounts.lookup email).isNone = true := by
      cases hle : store.accounts.lookup email with
      | none =>
        rw [hle] at hsome
        exact absurd hsome (by simp)
      | some v => simp
    simp only [removeAccount, if_neg hnone, if_pos hdef]
    cases hrem : ((delEntry store.accounts email).map (fun p => p.1)).filter
        (fun e => e ≠ "_legacy_") with
    | nil => rfl
    | cons e rest => rfl

/-- A concrete two-account store whose default is the first account. -/
def c7store : TokenStore :=
  ⟨[("a@x.com", {}), ("b@y.com", {})], some "a@x.com"⟩

/-- Witness for C7: removing the default of a valid two-account store
reassigns the default to the remaining account, and saving into an empty
store makes the saved account the default. -/
theorem c7_mutations_keep_default_valid_witness :
    (removeAccount c7store "a@x.com").2.1.defaultAccount = some "b@y.com" ∧
    (saveTokens ⟨[], none⟩ {} "a@x.com" none).defaultAccount = some "a@x.com" := by
  have hinv1 : storeInvariant c7store := by
    intro d hd
    rw [show d = "a@x.com" from (Option.some.inj hd).symm]
    rfl
  have hinv2 : storeInvariant ⟨[], none⟩ := by
    intro d hd
    exact Option.noConfusion hd
  have h1 := c7_mutations_keep_default_valid c7store {} "a@x.com" none hinv1
  have h2 := c7_mutations_keep_default_valid ⟨[], none⟩ {} "a@x.com" none hinv2
  constructor
  · exact (h1.2.2.2.2 rfl rfl).trans (by rfl)
  · exact h2.2.2.2.1 rfl

/-- C10: for every store and every email with no entry in the account map,
removeAccount and setDefaultAccount both return false and perform no write to
the persisted token store: the store value is unchanged and the save flag is
false. -/
theorem c10_missing_email_no_write (store : TokenStore) (email : String)
    (hmiss : store.accounts.lookup email = none) :
    removeAccount store email = (false, store, false) ∧
    setDefaultAccount store email = (false, store, false) := by
  constructor
  · simp only [removeAccount]
    rw [if_pos (by rw [hmiss]; rfl)]
  · simp only [setDefaultAccount]
    rw [if_pos (by rw [hmiss]; rfl)]

/-- Witness for C10 at the concrete two-account store and an unknown email. -/
theorem c10_missing_email_no_write_witness :
    c7store.accounts.lookup "nobody@z.com" = none ∧
    removeAccount c7store "nobody@z.com" = (false, c7store, false) ∧
    setDefaultAccount c7store "nobody@z.com" = (false, c7store, false) :=
  ⟨rfl, c10_missing_email_no_write c7store "nobody@z.com" rfl⟩

/-- resolveAccountHint from src/google.ts: an exact account-key match wins,
otherwise the first entry whose label matches the hint case-insensitively,
otherwise null. -/
def resolveAccountHint (store : TokenStore) (hint : String) : Option String :=
  if (store.accounts.lookup hint).isSome then some hint
  else
    match store.accounts.find? (fun p =>
        match p.2.label with
        | some l => decide (toLowerString l = toLowerString hint)
        | none => false) with
    | some p => some p.1
    | none => none

/-- The attendee-domain extraction email.split(at-sign)[1]?.toLowerCase() of
resolveAccount, with the JS truthiness guard folded in: none when there is no
at sign, or when the segment after the first at sign is empty. -/
def emailDomain (email : String) : Option String :=
  match splitOnChar '@' email.data with
  | _ :: d :: _ => if d = [] then none else some (toLowerString ⟨d⟩)
  | _ => none

/-- resolveAccount from src/google.ts: filter out the legacy placeholder;
return null when nothing is configured; then try the hint (JS truthiness
skips an empty hint), the single configured account, the first configured
account whose own domain appears among the attendee domains, and finally the
stored default. The source counts attendee domains in a map but only queries
key membership, so the domains are modelled as the list of extracted
domains; the source also skips domain inference entirely when the attendee
list is missing or empty, which coincides with the model because an empty
attendee list yields no domains and the find below then fails. -/
def resolveAccount (store : TokenStore) (hint : Option String)
    (attendeeEmails : Option (List String)) : Option String :=
  let accounts := store.accounts.filter (fun p => p.1 ≠ "_legacy_")
  if accounts.isEmpty then none
  else
    let hintResolved : Option String :=
      match hint with
      | some h => if h = "" then none else resolveAccountHint store h
      | none => none
    match hintResolved with
    | some r => some r
    | none =>
      if accounts.length = 1 then accounts.head?.map (fun p => p.1)
      else
        let attDomains := (attendeeEmails.getD []).filterMap emailDomain
        match accounts.find? (fun p =>
            match emailDomain p.1 with
            | some dm => attDomains.contains dm
            | none => false) with
        | some p => some p.1
        | none => store.defaultAccount

/-- The hint step of resolveAccount falls through: no hint was given, or it
was empty (JS falsy), or it resolved to nothing. -/
def hintMiss (store : TokenStore) (hint : Option String) : Prop :=
  match hint with
  | none => True
  | some h => h = "" ∨ resolveAccountHint store h = none

/-- Counterexample for C6 as stated: on a store holding only the legacy
placeholder entry with the default pointing at it (exactly the state produced
by legacy-format migration), resolveAccount returns null before considering
the hint or the stored default, although the claim says the hint (which
resolves by exact key match) and then the stored default would be used. -/
theorem c6_resolveAccount_counterexample :
    resolveAccount ⟨[("_legacy_", {})], some "_legacy_"⟩ none none = none ∧
    resolveAccount ⟨[("_legacy_", {})], some "_legacy_"⟩ (some "_legacy_") none = none ∧
    (⟨[("_legacy_", {})], some "_legacy_"⟩ : TokenStore).defaultAccount = some "_legacy_" ∧
    resolveAccountHint ⟨[("_legacy_", {})], some "_legacy_"⟩ "_legacy_" = some "_legacy_" :=
  ⟨rfl, rfl, rfl, rfl⟩

theorem resolveAccount_after_hint (store : TokenStore) (hint : Option String)
    (attendeeEmails : Option (List String))
    (hne : ¬ (store.accounts.filter (fun p => p.1 ≠ "_legacy_")).isEmpty = true)
    (hmiss : hintMiss store hint) :
    resolveAccount store hint attendeeEmails =
      (if (store.accounts.filter (fun p => p.1 ≠ "_legacy_")).length = 1 then
        (store.accounts.filter (fun p => p.1 ≠ "_legacy_")).head?.map (fun p => p.1)
      else
        match (store.accounts.filter (fun p => p.1 ≠ "_legacy_")).find? (fun p =>
            match emailDomain p.1 with
            | some dm => ((attendeeEmails.getD []).filterMap emailDomain).contains dm
            | none => false) with
        | some p => some p.1
        | none => store.defaultAccount) := by
  cases hint with
  | none =>
    simp only [resolveAccount, if_neg hne]
  | some h =>
    by_cases hhe : h = ""
    · subst hhe
      simp only [resolveAccount, if_neg hne, eq_self_iff_true, if_true]
    · have hres : resolveAccountHint store h = none := by
        rcases hmiss with hm1 | hm2
        · exact absurd hm1 hhe
        · exact hm2
      simp only [resolveAccount, if_neg hne, if_neg hhe, hres]

/-- C6 (amended): when at least one non-placeholder account is configured,
resolveAccount tries, in order: (a) the explicit non-empty hint resolved by
exact email match or case-insensitive label match, falling through without
failing when it matches nothing; (b) the single configured account when
exactly one exists; (c) the first configured account, in account iteration
order, whose own email domain appears among the attendee email domains;
(d) the stored default account, which may be null. When no non-placeholder
account is configured it returns null immediately, before the hint and the
stored default. -/
theorem c6_resolveAccount_order (store : TokenStore) (hint : Option String)
    (attendeeEmails : Option (List String)) :
    (store.accounts.filter (fun p => p.1 ≠ "_legacy_") = [] →
      resolveAccount store hint attendeeEmails = none) ∧
    (store.accounts.filter (fun p => p.1 ≠ "_legacy_") ≠ [] →
      ((∀ h r, hint = some h → h ≠ "" → resolveAccountHint store h = some r →
          resolveAccount store hint attendeeEmails = some r) ∧
       (hintMiss store hint →
         (∀ a, store.accounts.filter (fun p => p.1 ≠ "_legacy_") = [a] →
            resolveAccount store hint attendeeEmails = some a.1) ∧
         (2 ≤ (store.accounts.filter (fun p => p.1 ≠ "_legacy_")).length →
           (∀ a, (store.accounts.filter (fun p => p.1 ≠ "_legacy_")).find? (fun p =>
                match emailDomain p.1 with
                | some dm => ((attendeeEmails.getD []).filterMap emailDomain).contains dm
                | none => false) = some a →
              resolveAccount store hint attendeeEmails = some a.1) ∧
           ((store.accounts.filter (fun p => p.1 ≠ "_legacy_")).find? (fun p =>
                match emailDomain p.1 with
                | some dm => ((attendeeEmails.getD []).filterMap emailDomain).contains dm
                | none => false) = none →
              resolveAccount store hint attendeeEmails = store.defaultAccount))))) := by
  constructor
  · intro hempty
    simp only [resolveAccount, hempty]
    rfl
  · intro hne
    have hifne : ¬ (store.accounts.filter (fun p => p.1 ≠ "_legacy_")).isEmpty = true := by
      cases hfe : store.accounts.filter (fun p => p.1 ≠ "_legacy_") with
      | nil => exact absurd hfe hne
      | cons x xs => simp
    constructor
    · intro h r hh hne2 hres
      simp only [resolveAccount, if_neg hifne, hh, if_neg hne2, hres]
    · intro hmiss
      constructor
      · intro a hone
        rw [resolveAccount_after_hint store hint attendeeEmails hifne hmiss, hone]
        rfl
      · intro hlen
        have hlenne : ¬ (store.accounts.filter (fun p => p.1 ≠ "_legacy_")).length = 1 := by
          omega
        constructor
        · intro a hfind
          rw [resolveAccount_after_hint store hint attendeeEmails hifne hmiss,
            if_neg hlenne, hfind]
        · intro hfind
          rw [resolveAccount_after_hint store hint attendeeEmails hifne hmiss,
            if_neg hlenne, hfind]

/-- A two-account store whose default is the corp account. -/
def c6store : TokenStore :=
  ⟨[("a@corp.com", {}), ("b@personal.net", {})], some "a@corp.com"⟩

/-- Witness for C6 at the spec section 8 scenario: two configured accounts,
no hint, and attendee emails all sharing one account domain; resolveAccount
returns that account (not the stored default). -/
theorem c6_resolveAccount_order_witness :
    resolveAccount c6store none (some ["x@personal.net", "y@personal.net"]) =
      some "b@personal.net" ∧
    c6store.defaultAccount = some "a@corp.com" := by
  refine ⟨?_, rfl⟩
  exact ((((c6_resolveAccount_order c6store none
      (some ["x@personal.net", "y@personal.net"])).2 (by decide)).2 trivial).2
      (by decide)).1 ("b@personal.net", {}) rfl

/-! ## Retry with exponential backoff (retryWithBackoff and isRetryableError,
src/google.ts lines 64-131). A thrown JS error is modelled by its fields the
classifier reads; the wrapped asynchronous operation is modelled as a pure
function from the attempt index to its outcome, and the sleeps are returned
as the list of delays in milliseconds. -/

/-- The JS error shape read by isRetryableError: error.code,
error.response.status, the structured reason codes of
error.response.data.error.errors (absent reason strings cannot match and are
omitted), and error.message. -/
structure JsError where
  code : Option String := none
  status : Option Int := none
  reasons : List String := []
  message : Option String := none
deriving DecidableEq, Repr

/-- JS String.prototype.includes for a non-empty pattern, structurally on
character lists. -/
def includesSub (s pat : String) : Bool :=
  hasSubList pat.data s.data
where
  hasSubList (pat : List Char) : List Char → Bool
    | [] => decide (pat = [])
    | c :: rest => pat.isPrefixOf (c :: rest) || hasSubList pat rest

/-- isRetryableError from src/google.ts: network codes, transient HTTP
statuses (the JS truthiness guard on a zero status is kept, though 0 is not
in the list anyway), structured Google reason codes, and finally substring
matching on the message for quota and rate-limit phrasing. -/
def isRetryableError (error : JsError) : Bool :=
  if error.code = some "ECONNRESET" ∨ error.code = some "ETIMEDOUT" ∨
      error.code = some "ENOTFOUND" then true
  else if (match error.status with
      | some s => decide (s ≠ 0) && ([429, 500, 502, 503, 504].contains s)
      | none => false) then true
  else if error.reasons.any (fun reason =>
      ["rateLimitExceeded", "quotaExceeded", "userRateLimitExceeded", "backendError",
        "internalError"].contains reason) then true
  else if (match error.message with
      | some m => includesSub m "quota" || includesSub m "rate limit"
      | none => false) then true
  else false

/-- Modelled from the words of spec section 4.5: the classification of
retryable failures - network-level errors, the transient HTTP statuses, the
provider reason codes for rate/quota/backend transience, or quota/rate-limit
phrasing in the message. -/
def RetryableSpec (error : JsError) : Prop :=
  (error.code = some "ECONNRESET" ∨ error.code = some "ETIMEDOUT" ∨
    error.code = some "ENOTFOUND") ∨
  (∃ s, error.status = some s ∧ s ∈ ([429, 500, 502, 503, 504] : List Int)) ∨
  (∃ reason ∈ error.reasons, reason ∈ ["rateLimitExceeded", "quotaExceeded",
    "userRateLimitExceeded", "backendError", "internalError"]) ∨
  (∃ m, error.message = some m ∧
    (includesSub m "quota" = true ∨ includesSub m "rate limit" = true))

/-- The retry loop of retryWithBackoff: attempt is the current attempt index,
remaining the number of attempts still allowed after it (maxRetries minus
attempt). A success returns immediately; a failure is rethrown unchanged when
it is not retryable or this was the last attempt, and otherwise the loop
sleeps 2^attempt seconds and retries. The returned list holds the delays in
milliseconds actually slept. -/
def retryLoop {α : Type} (operation : Nat → Except JsError α) :
    Nat → Nat → Except JsError α × List Nat
  | attempt, remaining =>
    match operation attempt with
    | .ok v => (.ok v, [])
    | .error e =>
      match remaining with
      | 0 => (.error e, [])
      | r + 1 =>
        if isRetryableError e then
          let next := retryLoop operation (attempt + 1) r
          (next.1, 2 ^ attempt * 1000 :: next.2)
        else (.error e, [])

/-- retryWithBackoff from src/google.ts with its default maxRetries = 4:
attempts 0 through maxRetries. -/
def retryWithBackoff {α : Type} (operation : Nat → Except JsError α)
    (maxRetries : Nat := 4) : Except JsError α × List Nat :=
  retryLoop operation 0 maxRetries

theorem isRetryableError_iff (error : JsError) :
    isRetryableError error = true ↔ RetryableSpec error := by
  constructor
  · intro h
    unfold isRetryableError at h
    split_ifs at h with h1 h2 h3 h4
    · exact Or.inl h1
    · refine Or.inr (Or.inl ?_)
      cases hst : error.status with
      | none =>
        rw [hst] at h2
        exact absurd h2 (by simp)
      | some s =>
        rw [hst] at h2
        simp only [Bool.and_eq_true, decide_eq_true_eq] at h2
        exact ⟨s, rfl, List.elem_iff.mp h2.2⟩
    · refine Or.inr (Or.inr (Or.inl ?_))
      simp only [List.any_eq_true] at h3
      rcases h3 with ⟨r, hr, hrl⟩
      exact ⟨r, hr, List.elem_iff.mp hrl⟩
    · refine Or.inr (Or.inr (Or.inr ?_))
      cases hm : error.message with
      | none =>
        rw [hm] at h4
        exact absurd h4 (by simp)
      | some m =>
        rw [hm] at h4
        simp only [Bool.or_eq_true] at h4
        exact ⟨m, rfl, h4⟩
  · intro h
    unfold isRetryableError
    split_ifs with h1 h2 h3 h4
    any_goals rfl
    exfalso
    rcases h with hc | ⟨s, hs, hsl⟩ | ⟨r, hr, hrl⟩ | ⟨m, hm, hml⟩
    · exact h1 hc
    · apply h2
      rw [hs]
      have hs0 : s ≠ 0 := by
        simp only [List.mem_cons, List.not_mem_nil, or_false] at hsl
        omega
      simp only [Bool.and_eq_true, decide_eq_true_eq]
      exact ⟨hs0, List.elem_iff.mpr hsl⟩
    · apply h3
      simp only [List.any_eq_true]
      exact ⟨r, hr, List.elem_iff.mpr hrl⟩
    · apply h4
      rw [hm]
      simp only [Bool.or_eq_true]
      exact hml

theorem retryLoop_spec {α : Type} (operation : Nat → Except JsError α) :
    ∀ (remaining attempt : Nat),
      ∃ k, k ≤ remaining ∧
        retryLoop operation attempt remaining =
          (operation (attempt + k), (List.range k).map (fun i => 2 ^ (attempt + i) * 1000)) ∧
        (∀ j, j < k → ∃ e, operation (attempt + j) = .error e ∧ isRetryableError e = true) ∧
        (∀ e, operation (attempt + k) = .error e →
          isRetryableError e = false ∨ k = remaining) := by
  intro remaining
  induction remaining with
  | zero =>
    intro attempt
    refine ⟨0, Nat.le_refl 0, ?_, ?_, ?_⟩
    · rw [Nat.add_zero, retryLoop]
      cases hop : operation attempt with
      | ok v => rfl
      | error e => rfl
    · intro j hj
      exact absurd hj (Nat.not_lt_zero j)
    · intro e _
      exact Or.inr rfl
  | succ r ih =>
    intro attempt
    cases hop : operation attempt with
    | ok v =>
      refine ⟨0, Nat.zero_le _, ?_, ?_, ?_⟩
      · rw [retryLoop, hop]
        simp [hop]
      · intro j hj
        exact absurd hj (Nat.not_lt_zero j)
      · intro e he
        rw [Nat.add_zero, hop] at he
        exact Except.noConfusion he
    | error e0 =>
      by_cases hret : isRetryableError e0 = true
      · obtain ⟨k, hk, heq, hrty, hstop⟩ := ih (attempt + 1)
        refine ⟨k + 1, by omega, ?_, ?_, ?_⟩
        · rw [retryLoop, hop]
          simp only [hret, if_true]
          rw [heq]
          have h1 : attempt + 1 + k = attempt + (k + 1) := by omega
          rw [h1, List.range_succ_eq_map, List.map_cons, List.map_map]
          refine congrArg (fun l => (operation (attempt + (k + 1)), _ :: l)) ?_
          apply List.map_congr_left
          intro i _
          simp only [Function.comp_apply]
          have h2 : attempt + 1 + i = attempt + (i + 1) := by omega
          rw [h2]
        · intro j hj
          cases j with
          | zero => exact ⟨e0, by rw [Nat.add_zero]; exact hop, hret⟩
          | succ j0 =>
            have hj0 : j0 < k := by omega
            obtain ⟨e, he, her⟩ := hrty j0 hj0
            refine ⟨e, ?_, her⟩
            rw [show attempt + (j0 + 1) = attempt + 1 + j0 by omega]
            exact he
        · intro e he
          rw [show attempt + (k + 1) = attempt + 1 + k by omega] at he
          rcases hstop e he with hl | hr
          · exact Or.inl hl
          · exact Or.inr (by omega)
      · refine ⟨0, Nat.zero_le _, ?_, ?_, ?_⟩
        · rw [retryLoop, hop]
          simp [hop, hret]
        · intro j hj
          exact absurd hj (Nat.not_lt_zero j)
        · intro e he
          rw [Nat.add_zero, hop] at he
          have he0 : e0 = e := Except.error.inj he
          subst he0
          exact Or.inl (Bool.eq_false_iff.mpr hret)

/-- C8: with maxRetries = 4 the wrapper stops at some attempt k at most 4;
every earlier attempt failed with an error classified retryable (the
classification being exactly: network codes ECONNRESET, ETIMEDOUT, ENOTFOUND,
HTTP statuses 429, 500, 502, 503, 504, structured provider reason codes for
rate, quota and backend transience, or quota / rate-limit message
substrings); the delays slept are exactly 2^0, ..., 2^(k-1) seconds - between
attempts only, never after the final one; and the result is attempt k
outcome itself, so an error is propagated unchanged, which happens only when
it is not retryable or the attempts are exhausted. -/
theorem c8_retryWithBackoff_schedule :
    (∀ error, isRetryableError error = true ↔ RetryableSpec error) ∧
    (∀ (α : Type) (operation : Nat → Except JsError α),
      ∃ k, k ≤ 4 ∧
        retryWithBackoff operation 4 =
          (operation k, (List.range k).map (fun i => 2 ^ i * 1000)) ∧
        (∀ j, j < k → ∃ e, operation j = .error e ∧ isRetryableError e = true) ∧
        (∀ e, operation k = .error e → isRetryableError e = false ∨ k = 4)) := by
  refine ⟨isRetryableError_iff, ?_⟩
  intro α operation
  obtain ⟨k, hk, heq, hrty, hstop⟩ := retryLoop_spec operation 4 0
  refine ⟨k, hk, ?_, ?_, ?_⟩
  · rw [retryWithBackoff, heq]
    simp
  · intro j hj
    obtain ⟨e, he, her⟩ := hrty j hj
    rw [Nat.zero_add] at he
    exact ⟨e, he, her⟩
  · intro e he
    apply hstop
    rw [Nat.zero_add]
    exact he

/-- The spec section 8 example pinned concretely: an operation failing twice
with HTTP 503 and then succeeding returns the success after exactly two
delays of 1s and 2s. -/
theorem retryWithBackoff_503_example :
    retryWithBackoff (fun n => if n < 2 then .error ⟨none, some 503, [], none⟩ else .ok 42) 4 =
      (.ok 42, [1000, 2000]) := by
  rfl

/-! ## Tool handler validation limits (src/index.ts lines 26-57, 140-160 and
268-315). The handlers first validate the parsed window instants and the
duration and only then resolve attendees and call the calendar; attendee
resolution and everything after it are modelled as oracle functions, and ISO
format checking of the raw strings (validateISODate) is elided because the
modelled inputs are the already-parsed millisecond instants. -/

/-- The validation failures a handler can raise before any remote work. -/
inductive ToolError where
  | invalidRange
  | windowTooLarge
  | durationTooSmall
  | durationTooLong
  | laterFailure (msg : String)
deriving DecidableEq, Repr

/-- validateDateRange from src/index.ts: the start must be strictly before
the end. -/
def validateDateRange (startMs endMs : Int) : Except ToolError Unit :=
  if endMs ≤ startMs then .error .invalidRange else .ok ()

/-- validateTimeWindow from src/index.ts: reject a window of more than
maxDays days. The source compares the floating-point day count
diffMs / 86400000 with maxDays; on the exactly representable millisecond
differences in range this agrees with the exact rational comparison modelled
here, because the rounding error of the double division is orders of
magnitude below 1/86400000, the day-count gap between adjacent millisecond
values. -/
def validateTimeWindow (startMs endMs maxDays : Int) : Except ToolError Unit :=
  if maxDays * 86400000 < endMs - startMs then .error .windowTooLarge else .ok ()

/-- validateDuration from src/index.ts: at least 1 minute and at most 1440
minutes (24 hours). -/
def validateDuration (durationMinutes : Int) : Except ToolError Unit :=
  if durationMinutes < 1 then .error .durationTooSmall
  else if 1440 < durationMinutes then .error .durationTooLong
  else .ok ()

/-- The plan_and_schedule handler prefix from src/index.ts: validations in
source order (range, 90-day window, duration), then attendee resolution,
then the remainder of the handler (free/busy, grid, booking) as an oracle. -/
def planAndScheduleHandler {α : Type}
    (resolver : List String → Except ToolError (List Resolved))
    (rest : List Resolved → Except ToolError α) (attendees : List String)
    (startMs endMs durationMinutes : Int) : Except ToolError α := do
  _ ← validateDateRange startMs endMs
  _ ← validateTimeWindow startMs endMs 90
  _ ← validateDuration durationMinutes
  let resolved ← resolver attendees
  rest resolved

/-- The find_slots handler prefix from src/index.ts: range and 90-day window
validation, then attendee resolution, then the remainder as an oracle. -/
def findSlotsHandler {α : Type}
    (resolver : List String → Except ToolError (List Resolved))
    (rest : List Resolved → Except ToolError α) (attendees : List String)
    (startMs endMs : Int) : Except ToolError α := do
  _ ← validateDateRange startMs endMs
  _ ← validateTimeWindow startMs endMs 90
  let resolved ← resolver attendees
  rest resolved

/-- C9: a requested duration over 1440 minutes, or an availability window
over 90 days, is rejected with an error by the plan_and_schedule handler, and
a window over 90 days is rejected by the find_slots handler - in both cases
before any attendee resolution or remote call: the outcome is identical under
arbitrary replacement of the resolution oracle and of the rest of the
handler. -/
theorem c9_validation_limits {α : Type}
    (resolver1 resolver2 : List String → Except ToolError (List Resolved))
    (rest1 rest2 : List Resolved → Except ToolError α) (attendees : List String)
    (startMs endMs durationMinutes : Int) :
    (1440 < durationMinutes ∨ 90 * 86400000 < endMs - startMs →
      (∃ err, planAndScheduleHandler resolver1 rest1 attendees startMs endMs durationMinutes =
        .error err) ∧
      planAndScheduleHandler resolver1 rest1 attendees startMs endMs durationMinutes =
        planAndScheduleHandler resolver2 rest2 attendees startMs endMs durationMinutes) ∧
    (90 * 86400000 < endMs - startMs →
      (∃ err, findSlotsHandler resolver1 rest1 attendees startMs endMs = .error err) ∧
      findSlotsHandler resolver1 rest1 attendees startMs endMs =
        findSlotsHandler resolver2 rest2 attendees startMs endMs) := by
  constructor
  · intro hbad
    by_cases hr : endMs ≤ startMs
    · have h1 : ∀ (res : List String → Except ToolError (List Resolved))
          (k : List Resolved → Except ToolError α),
          planAndScheduleHandler res k attendees startMs endMs durationMinutes =
            .error .invalidRange := by
        intro res k
        simp only [planAndScheduleHandler, validateDateRange, if_pos hr]
        rfl
      exact ⟨⟨_, h1 resolver1 rest1⟩, (h1 resolver1 rest1).trans (h1 resolver2 rest2).symm⟩
    · by_cases hw : 90 * 86400000 < endMs - startMs
      · have h1 : ∀ (res : List String → Except ToolError (List Resolved))
            (k : List Resolved → Except ToolError α),
            planAndScheduleHandler res k attendees startMs endMs durationMinutes =
              .error .windowTooLarge := by
          intro res k
          simp only [planAndScheduleHandler, validateDateRange, if_neg hr,
            validateTimeWindow, if_pos hw]
          rfl
        exact ⟨⟨_, h1 resolver1 rest1⟩, (h1 resolver1 rest1).trans (h1 resolver2 rest2).symm⟩
      · have hd : 1440 < durationMinutes := by
          rcases hbad with hd | hw2
          · exact hd
          · exact absurd hw2 hw
        have hd1 : ¬ durationMinutes < 1 := by omega
        have h1 : ∀ (res : List String → Except ToolError (List Resolved))
            (k : List Resolved → Except ToolError α),
            planAndScheduleHandler res k attendees startMs endMs durationMinutes =
              .error .durationTooLong := by
          intro res k
          simp only [planAndScheduleHandler, validateDateRange, if_neg hr,
            validateTimeWindow, if_neg hw, validateDuration, if_neg hd1, if_pos hd]
          rfl
        exact ⟨⟨_, h1 resolver1 rest1⟩, (h1 resolver1 rest1).trans (h1 resolver2 rest2).symm⟩
  · intro hw
    by_cases hr : endMs ≤ startMs
    · have h1 : ∀ (res : List String → Except ToolError (List Resolved))
          (k : List Resolved → Except ToolError α),
          findSlotsHandler res k attendees startMs endMs = .error .invalidRange := by
        intro res k
        simp only [findSlotsHandler, validateDateRange, if_pos hr]
        rfl
      exact ⟨⟨_, h1 resolver1 rest1⟩, (h1 resolver1 rest1).trans (h1 resolver2 rest2).symm⟩
    · have h1 : ∀ (res : List String → Except ToolError (List Resolved))
          (k : List Resolved → Except ToolError α),
          findSlotsHandler res k attendees startMs endMs = .error .windowTooLarge := by
        intro res k
        simp only [findSlotsHandler, validateDateRange, if_neg hr,
          validateTimeWindow, if_pos hw]
        rfl
      exact ⟨⟨_, h1 resolver1 rest1⟩, (h1 resolver1 rest1).trans (h1 resolver2 rest2).symm⟩

/-- Witness for C9 at a concrete over-limit request: a 91-day window and a
1441-minute duration, with two different resolution and continuation oracles;
both handlers reject before consulting them. -/
theorem c9_validation_limits_witness :
    ((1440 : Int) < 1441 ∨ 90 * 86400000 < 7862400000 - 0) ∧
    (∃ err, planAndScheduleHandler (α := Unit) (fun _ => .ok []) (fun _ => .ok ()) []
        0 7862400000 1441 = .error err) ∧
    planAndScheduleHandler (α := Unit) (fun _ => .ok []) (fun _ => .ok ()) [] 0 7862400000 1441 =
      planAndScheduleHandler (fun _ => .error (.laterFailure "x")) (fun _ => .ok ()) []
        0 7862400000 1441 ∧
    (∃ err, findSlotsHandler (α := Unit) (fun _ => .ok []) (fun _ => .ok ()) []
        0 7862400000 = .error err) ∧
    findSlotsHandler (α := Unit) (fun _ => .ok []) (fun _ => .ok ()) [] 0 7862400000 =
      findSlotsHandler (fun _ => .error (.laterFailure "x")) (fun _ => .ok ()) [] 0 7862400000 := by
  have h := c9_validation_limits (α := Unit) (fun _ => .ok [])
    (fun _ => .error (.laterFailure "x")) (fun _ => .ok ()) (fun _ => .ok ()) []
    0 7862400000 1441
  have h1 := h.1 (by decide)
  have h2 := h.2 (by decide)
  exact ⟨by decide, h1.1, h1.2, h2.1, h2.2⟩
